import Mathlib

/-!
Verification of the pastecat storage layer against its specification.

The Go sources are shallowly embedded: Go `int`/`int64`/`time.Duration`
values are modelled as `Int` (overflow is immaterial for the quantities
involved: paste counts, byte sizes and nanosecond durations stay far below
2^63 in every reachable configuration, and `main` caps `maxStorage` at
1 EB), byte strings as `List Nat`, Go strings as `List Char` or `String`,
maps as association lists, and fallible Go functions as `Option`/`Except`
returning functions.  Struct values stored in Go maps are copied on every
read; the embedding reproduces that copy semantics explicitly, including
for `sync.WaitGroup` fields stored inline in cache records.
-/

/-! ## Capacity controller: storage/stats.go

`Stats` from src/storage/stats.go.  The top-level src/stats.go used by
`fileRecover` has the same fields (lower-cased) and a `makeSpaceFor`
and `freeSpace` with identical bodies, so one embedding serves both.
-/

/-- Errors returned by `Stats.MakeSpaceFor` (storage/stats.go). -/
inductive StatsError where
  | reachedMaxNumber
  | reachedMaxStorage
deriving DecidableEq, Repr

/-- The `Stats` struct of storage/stats.go: `number, MaxNumber int` and
`storage, MaxStorage int64`.  Go machine integers are modelled as `Int`. -/
structure Stats where
  number : Int
  MaxNumber : Int
  storage : Int
  MaxStorage : Int
deriving DecidableEq, Repr

/-- Embedding of `(*Stats).MakeSpaceFor` (storage/stats.go lines 28-40).
Returns the error, if any, together with the post-state; the lock makes
the whole body one atomic step in Go, which the functional embedding
reflects by construction. -/
def Stats.MakeSpaceFor (s : Stats) (size : Int) : Option StatsError × Stats :=
  if s.MaxNumber > 0 ∧ s.number ≥ s.MaxNumber then
    (some .reachedMaxNumber, s)
  else if s.MaxStorage > 0 ∧ s.storage + size > s.MaxStorage then
    (some .reachedMaxStorage, s)
  else
    (none, { s with number := s.number + 1, storage := s.storage + size })

/-- Embedding of `(*Stats).FreeSpace` (storage/stats.go lines 42-47). -/
def Stats.FreeSpace (s : Stats) (size : Int) : Stats :=
  { s with number := s.number - 1, storage := s.storage - size }

/-- A `Stats` with both counters zeroed and the given maxima. -/
def Stats.zeroed (maxNumber maxStorage : Int) : Stats :=
  { number := 0, MaxNumber := maxNumber, storage := 0, MaxStorage := maxStorage }

/-! ### Reserve/release traces (for the conservation claim)

A trace interleaves successful reserves (`MakeSpaceFor`) with paired
releases (`FreeSpace`).  The ghost list carries the sizes of reserves not
yet released; a release must name the size of one outstanding reserve. -/

/-- One call in a reserve/release trace. -/
inductive SpaceOp where
  | reserve (size : Int)
  | release (size : Int)
deriving DecidableEq, Repr

/-- Execute one trace step.  A reserve must succeed (a failing
`MakeSpaceFor` is outside the claim's traces) and records its size as
outstanding; a release must match an outstanding reserve's size and
applies `FreeSpace`. -/
def spaceStep (st : Stats × List Int) (op : SpaceOp) : Option (Stats × List Int) :=
  match op with
  | .reserve size =>
      let r := Stats.MakeSpaceFor st.1 size
      if r.1 = none then some (r.2, size :: st.2) else none
  | .release size =>
      if size ∈ st.2 then some (Stats.FreeSpace st.1 size, st.2.erase size) else none

/-- Execute a trace of reserve/release calls. -/
def runSpaceOps (st : Stats × List Int) : List SpaceOp → Option (Stats × List Int)
  | [] => some st
  | op :: ops => (spaceStep st op).bind (fun st' => runSpaceOps st' ops)

/-! ## Identifiers: storage/storage.go

`const idSize = 8`; `type ID [idSize / 2]byte`; hex round-trip via Go's
`encoding/hex`.  Go strings are modelled as `List Char`. -/

/-- Length of the random hexadecimal ids assigned to pastes
(storage/storage.go line 18). -/
def idSize : Nat := 8

/-- The binary representation of a paste identifier: `[idSize / 2]byte`,
i.e. four bytes. -/
structure ID where
  b0 : Fin 256
  b1 : Fin 256
  b2 : Fin 256
  b3 : Fin 256
deriving DecidableEq, Repr

/-- One lowercase hex digit, as produced by Go's
`encoding/hex.EncodeToString` (table "0123456789abcdef"). -/
def hexDigit (n : Nat) : Char :=
  if n < 10 then Char.ofNat (48 + n) else Char.ofNat (87 + n)

/-- Hex encoding of one byte: high nibble then low nibble. -/
def byteToHex (b : Fin 256) : List Char :=
  [hexDigit (b.val / 16), hexDigit (b.val % 16)]

/-- Embedding of `(ID).String` (storage/storage.go lines 62-64):
`hex.EncodeToString(id[:])`, eight lowercase hex characters. -/
def ID.String (id : ID) : List Char :=
  byteToHex id.b0 ++ byteToHex id.b1 ++ byteToHex id.b2 ++ byteToHex id.b3

/-- Go's `encoding/hex.fromHexChar`: value of one hex digit, accepting
`0-9`, `a-f` and `A-F`, failing on everything else. -/
def fromHexChar (c : Char) : Option (Fin 16) :=
  if h : 48 ≤ c.toNat ∧ c.toNat ≤ 57 then some ⟨c.toNat - 48, by omega⟩
  else if h : 97 ≤ c.toNat ∧ c.toNat ≤ 102 then some ⟨c.toNat - 97 + 10, by omega⟩
  else if h : 65 ≤ c.toNat ∧ c.toNat ≤ 70 then some ⟨c.toNat - 65 + 10, by omega⟩
  else none

/-- Go's `encoding/hex.Decode`: consume the input two characters at a
time; fail on a non-hex character or an odd-length input. -/
def decodeHex : List Char → Option (List (Fin 256))
  | [] => some []
  | [_] => none
  | c1 :: c2 :: rest =>
      match fromHexChar c1, fromHexChar c2 with
      | some hi, some lo =>
          (decodeHex rest).map
            (fun bs => (⟨hi.val * 16 + lo.val, by omega⟩ : Fin 256) :: bs)
      | _, _ => none

/-- Embedding of `IDFromString` (storage/storage.go lines 50-60): the
string must have length exactly `idSize` and decode as hex to
`idSize / 2` bytes, else an error is returned.  The Go error value is
modelled as `Unit`. -/
def IDFromString (hexID : List Char) : Except Unit ID :=
  if hexID.length ≠ idSize then .error ()
  else
    match decodeHex hexID with
    | some [a, b, c, d] => .ok ⟨a, b, c, d⟩
    | _ => .error ()

/-- The sixteen characters `encoding/hex` emits: the canonical lowercase
hex alphabet. -/
def lowercaseHexTable : List Char :=
  (List.range 16).map hexDigit

/-! ## Random id draws: storage/storage.go -/

/-- Number of times to try getting an unused random paste id
(storage/storage.go line 20). -/
def randTries : Nat := 10

/-- Errors of the storage package (storage/storage.go) plus a generic
I/O error standing for any `*os.PathError` a backend can surface. -/
inductive StorageErr where
  | pasteNotFound
  | noUnusedIDFound
  | ioErr
deriving DecidableEq, Repr

/-- The loop body of `randomID` (storage/storage.go lines 80-91).
`rng t` is the outcome of the `crypto/rand.Read` on try `t`: `none`
models an entropy-source error (the Go loop `continue`s, consuming the
try), `some id` the drawn id. -/
def randomIDLoop (rng : Nat → Option ID) (available : ID → Bool) (t : Nat) :
    Except StorageErr ID :=
  if _h : t < randTries then
    match rng t with
    | none => randomIDLoop rng available (t + 1)
    | some id => if available id then .ok id else randomIDLoop rng available (t + 1)
  else .error .noUnusedIDFound
termination_by randTries - t

/-- Embedding of `randomID` (storage/storage.go lines 80-91): run the
draw loop from try 0. -/
def randomID (rng : Nat → Option ID) (available : ID → Bool) : Except StorageErr ID :=
  randomIDLoop rng available 0

/-! ## Deletion scheduler: storage/storage.go `SetupPasteDeletion`

The goroutine body is embedded as a function of an oracle
`delOK : Nat → Bool` giving the outcome of the k-th `del()` call (a call
to `s.Delete(id)` followed, on success, by `stats.FreeSpace(size)`).
Real time is abstracted to the induced schedule: `time.AfterFunc(after, f)`
fires the first attempt at offset `after`, and each retry waits one full
`deleteRetryTimeout` on the timer armed/reset after the previous failure. -/

/-- Number of times to retry deleting a paste
(storage/storage.go line 22). -/
def deleteRetries : Nat := 5

/-- How long to wait before retrying to delete a paste:
`1 * time.Minute` in nanoseconds (storage/storage.go line 24). -/
def deleteRetryTimeout : Int := 60 * 1000000000

/-- The retry `for i := 0; i < deleteRetries; i++` loop of
`SetupPasteDeletion`, after the first `del()` has failed.  Returns the
number of `del()` calls the loop performs and whether one succeeded
(`break`). Call `k` of the whole goroutine is `delOK k`; the loop's
iteration `i` performs call `i + 1`. -/
def deletionRetryLoop (delOK : Nat → Bool) (i : Nat) : Nat × Bool :=
  if _h : i < deleteRetries then
    if delOK (i + 1) then (1, true)
    else
      let r := deletionRetryLoop delOK (i + 1)
      (r.1 + 1, r.2)
  else (0, false)
termination_by deleteRetries - i

/-- Embedding of `SetupPasteDeletion` (storage/storage.go lines 93-120):
total number of `del()` attempts made and whether the paste was deleted.
With `after == 0` the function returns before arming any timer; the
goroutine itself never returns an error to anyone (its type is `func()`),
so no error component exists to propagate. -/
def setupPasteDeletionRun (after : Int) (delOK : Nat → Bool) : Nat × Bool :=
  if after = 0 then (0, false)
  else if delOK 0 then (1, true)
  else
    let r := deletionRetryLoop delOK 0
    (r.1 + 1, r.2)

/-- Time offsets (relative to the moment `SetupPasteDeletion` was
called) at which the first `n` delete attempts fire: attempt 0 at
`after` when `time.AfterFunc` fires, attempt `k+1` one
`deleteRetryTimeout` after attempt `k` (the timer is armed or reset
right after each failure and the loop blocks on `<-timer.C`). -/
def deletionAttemptTimes (after : Int) (n : Nat) : List Int :=
  (List.range n).map (fun k : Nat => after + (k : Int) * deleteRetryTimeout)

/-! ## Recovery walk: storage_fs.go `fileRecover`

The `filepath.WalkFunc` closure returned by `fileRecover`
(storage_fs.go lines 173-201), applied to one visited path.  Its inputs
are the walk error/`IsDir` flag, whether `idFromPath` succeeded, and the
file's `ModTime` and `Size` (nanoseconds / bytes as `Int`).  `insert` is
the closure from `NewFileStore` (storage_fs.go lines 62-83), which
stores `path`, `size` and `modTime` in the cache record unchanged; the
`indexed` outcome records exactly the values passed to `insert` and the
duration handed to `setupPasteDeletion`. -/

/-- Outcome of the walk callback on one file. -/
inductive WalkOutcome where
  | early
  | badPath
  | removed
  | capacityErr (e : StatsError)
  | indexed (modTime size lifeLeft : Int)
deriving DecidableEq, Repr

/-- True exactly when the outcome indexed the file. -/
def WalkOutcome.isIndexed : WalkOutcome → Bool
  | .indexed _ _ _ => true
  | _ => false

/-- Embedding of the closure returned by `fileRecover` (storage_fs.go
lines 173-201) applied to one visited path, together with the `Stats`
post-state.  `errOrDir` is `err != nil || fileInfo.IsDir()` (both return
early), `idOk` is whether `idFromPath(path)` succeeded. -/
def fileRecoverStep (startTime lifeTime : Int) (st : Stats)
    (errOrDir : Bool) (idOk : Bool) (modTime size : Int) : WalkOutcome × Stats :=
  if errOrDir then (.early, st)
  else if ¬ idOk then (.badPath, st)
  else if lifeTime > 0 ∧ modTime + lifeTime - startTime ≤ 0 then (.removed, st)
  else if size = 0 then (.removed, st)
  else
    match Stats.MakeSpaceFor st size with
    | (some e, st') => (.capacityErr e, st')
    | (none, st') => (.indexed modTime size (modTime + lifeTime - startTime), st')

/-! ## Go map embedding

Backend caches are `map[ID]...` with struct values.  Reading
`cached, e := s.cache[id]` yields a COPY of the stored struct; the
association-list embedding returns the stored value, and every caller
below treats it as its own copy, exactly as Go does. -/

/-- Lookup in a `map[ID]α`: the returned value is a copy. -/
def mapFind {α : Type} (id : ID) : List (ID × α) → Option α
  | [] => none
  | (k, v) :: rest => if k = id then some v else mapFind id rest

/-- `delete(m, id)` on a `map[ID]α`. -/
def mapErase {α : Type} (id : ID) : List (ID × α) → List (ID × α)
  | [] => []
  | (k, v) :: rest => if k = id then rest else (k, v) :: mapErase id rest

/-! ## FileStore: storage_fs.go

`fileCache` holds a `sync.WaitGroup` INLINE (`reading sync.WaitGroup`),
so the counter is part of the struct value and is duplicated whenever
the struct is copied — in particular by every map read.  The embedding
keeps the counter as a plain `Nat` field for exactly that reason:
`Get`'s `cached.reading.Add(1)` and `Delete`'s `cached.reading.Wait()`
each act on their own local copy, never on the map's record. -/

/-- The `fileCache` struct (storage_fs.go lines 24-29). -/
structure fileCache where
  path : String
  modTime : Int
  size : Int
  reading : Nat
deriving DecidableEq, Repr

/-- State of a `FileStore`: the id→record cache plus the set of paths
that currently exist on disk (the backing storage). -/
structure FileStoreState where
  cache : List (ID × fileCache)
  files : List String
deriving DecidableEq, Repr

/-- A `FilePaste` handle as returned by `Get`: an open `*os.File` plus
the `reading` counter of the private `fileCache` copy the handle's
`cache` pointer refers to (storage_fs.go lines 31-34, 85-98). -/
structure FilePaste where
  fileOpen : Bool
  cacheReading : Nat
deriving DecidableEq, Repr

/-- Embedding of `(*FileStore).Get` (storage_fs.go lines 85-98).
`cached, e := s.cache[id]` copies the record; `cached.reading.Add(1)`
increments the counter of that local copy only, so the store state is
returned unchanged and the increment is visible only through the
handle. -/
def FileStore.Get (s : FileStoreState) (id : ID) :
    Except StorageErr (FilePaste × FileStoreState) :=
  match mapFind id s.cache with
  | none => .error .pasteNotFound
  | some cached =>
      if cached.path ∈ s.files then
        .ok ({ fileOpen := true, cacheReading := cached.reading + 1 }, s)
      else .error .ioErr

/-- Embedding of `(*FileStore).Delete` (storage_fs.go lines 139-152).
`cached` is again a private copy; `cached.reading.Wait()` returns
immediately when that copy's counter is zero and blocks forever
otherwise (nothing can ever call `Done` on the copy) — the blocked case
is modelled as `none`.  On the non-blocked path the cache entry is
removed and then `os.Remove(cached.path)` deletes the backing file. -/
def FileStore.Delete (s : FileStoreState) (id : ID) :
    Option (Option StorageErr × FileStoreState) :=
  match mapFind id s.cache with
  | none => some (some .pasteNotFound, s)
  | some cached =>
      let s' : FileStoreState := { s with cache := mapErase id s.cache }
      if cached.reading = 0 then
        if cached.path ∈ s'.files then
          some (none, { s' with files := s'.files.erase cached.path })
        else some (some .ioErr, s')
      else none

/-! ## MemStore: storage_mem.go -/

/-- The `memCache` struct (storage_mem.go lines 69-73). -/
structure memCache where
  buffer : List Nat
  modTime : Int
  size : Int
deriving DecidableEq, Repr

/-- State of a `MemStore`: the id→record cache plus its embedded
`stats Stats`. -/
structure MemStoreState where
  cache : List (ID × memCache)
  stats : Stats
deriving DecidableEq, Repr

/-- Embedding of `(*MemStore).Delete` (storage_mem.go lines 145-155):
missing id → `ErrPasteNotFound` with nothing touched; otherwise the
entry is removed and `s.stats.freeSpace(cached.size)` runs. -/
def MemStore.Delete (s : MemStoreState) (id : ID) :
    Option StorageErr × MemStoreState :=
  match mapFind id s.cache with
  | none => (some .pasteNotFound, s)
  | some cached =>
      (none, { cache := mapErase id s.cache, stats := s.stats.FreeSpace cached.size })

/-- The `bufferContent` struct (storage_mem.go lines 13-16): the byte
slice and the current read position `i int64`. -/
structure bufferContent where
  b : List Nat
  i : Int
deriving DecidableEq, Repr

/-- Embedding of `func (c bufferContent) Read(p []byte)`
(storage_mem.go lines 18-28).  The receiver is a VALUE; the method
mutates its own copy (`c.i += int64(n)`), which is returned here as the
first component so the caller's treatment of it stays visible.  Output:
(receiver copy after the call, `n`, error where `some ()` is `io.EOF`,
bytes copied into `p`); `pLen` is `len(p)`. -/
def bufferContent.ReadImpl (c : bufferContent) (pLen : Nat) :
    bufferContent × Nat × Option Unit × List Nat :=
  if pLen = 0 then (c, 0, none, [])
  else if c.i ≥ (c.b.length : Int) then (c, 0, some (), [])
  else
    let data := (c.b.drop c.i.toNat).take pLen
    ({ c with i := c.i + data.length }, data.length, none, data)

/-- Embedding of `func (c bufferContent) Seek(offset, whence)`
(storage_mem.go lines 44-60), again with the mutated receiver copy as
first output; `some ()` in the error slot stands for the two `errors.New`
failures.  -/
def bufferContent.SeekImpl (c : bufferContent) (offset : Int) (whence : Nat) :
    bufferContent × Option Unit × Int :=
  if whence = 0 then
    if offset < 0 then (c, some (), 0) else ({ c with i := offset }, none, offset)
  else if whence = 1 then
    let i := c.i + offset
    if i < 0 then (c, some (), 0) else ({ c with i := i }, none, i)
  else if whence = 2 then
    let i := (c.b.length : Int) + offset
    if i < 0 then (c, some (), 0) else ({ c with i := i }, none, i)
  else (c, some (), 0)

/-- A `MemPaste` handle (storage_mem.go lines 75-78); the `cache`
pointer fields (`modTime`, `size`) play no part in reading. -/
structure MemPaste where
  content : bufferContent
deriving DecidableEq, Repr

/-- Embedding of `func (ps MemPaste) Read(p []byte)` (storage_mem.go
lines 80-82): `ps.content.Read(p)` passes `ps.content` by value, and
the mutated receiver copy is DISCARDED — neither `ps` nor any caller
variable ever receives it. -/
def MemPaste.Read (ps : MemPaste) (pLen : Nat) : Nat × Option Unit × List Nat :=
  (ps.content.ReadImpl pLen).2

/-- Embedding of `func (ps MemPaste) Seek(offset, whence)`
(storage_mem.go lines 88-90): the receiver copy mutated by
`bufferContent.Seek` is likewise discarded. -/
def MemPaste.Seek (ps : MemPaste) (offset : Int) (whence : Nat) : Option Unit × Int :=
  (ps.content.SeekImpl offset whence).2

/-- The handle `(*MemStore).Get` builds on a cache hit (storage_mem.go
lines 110-118): `bufferContent{b: cached.buffer}` with the position at
its zero value. -/
def memGetHandle (buffer : List Nat) : MemPaste :=
  { content := { b := buffer, i := 0 } }

/-- One method call a caller performs on a paste handle it holds. -/
inductive PasteOp where
  | read (pLen : Nat)
  | seek (offset : Int) (whence : Nat)
deriving DecidableEq, Repr

/-- Run a sequence of method calls on a `MemPaste` variable, collecting
each read's `len(p)` with its result.  A Go method call passes the
receiver by value, so the variable `ps` itself is never reassigned; the
final value of the variable is returned alongside the read results. -/
def runPaste (ps : MemPaste) : List PasteOp → MemPaste × List (Nat × (Nat × Option Unit × List Nat))
  | [] => (ps, [])
  | .read pLen :: rest =>
      let r := ps.Read pLen
      let rec' := runPaste ps rest
      (rec'.1, (pLen, r) :: rec'.2)
  | .seek off wh :: rest =>
      let _ := ps.Seek off wh
      runPaste ps rest

/-! ## MmapStore: storage_fs_mmap.go

`mmapCache` also stores its `reading sync.WaitGroup` inline, with the
same copy semantics as `fileCache`.  `mappings` is the set of paths with
a live memory mapping; `Unmap` removes the path from it. -/

/-- The `mmapCache` struct (storage_fs_mmap.go lines 21-27). -/
structure mmapCache where
  reading : Nat
  modTime : Int
  path : String
  size : Int
deriving DecidableEq, Repr

/-- State of an `MmapStore`: cache, on-disk files and live mappings. -/
structure MmapStoreState where
  cache : List (ID × mmapCache)
  files : List String
  mappings : List String
deriving DecidableEq, Repr

/-- Embedding of `(*MmapStore).Delete` (storage_fs_mmap.go lines
132-148): missing id → `ErrPasteNotFound`, untouched state; otherwise
remove the entry, wait on the local copy's counter (blocked = `none`),
unmap, then remove the file. -/
def MmapStore.Delete (s : MmapStoreState) (id : ID) :
    Option (Option StorageErr × MmapStoreState) :=
  match mapFind id s.cache with
  | none => some (some .pasteNotFound, s)
  | some cached =>
      let s' : MmapStoreState := { s with cache := mapErase id s.cache }
      if cached.reading = 0 then
        if cached.path ∈ s'.mappings then
          let s'' : MmapStoreState := { s' with mappings := s'.mappings.erase cached.path }
          if cached.path ∈ s''.files then
            some (none, { s'' with files := s''.files.erase cached.path })
          else some (some .ioErr, s'')
        else some (some .ioErr, s')
      else none

/-! ## Concrete scenario states -/

/-- The all-zero id `00000000`. -/
def idZero : ID := ⟨0, 0, 0, 0⟩

/-- A `FileStore` holding one paste at `idZero`, its backing file
present on disk and no reader registered in the cache record. -/
def oneFileState : FileStoreState :=
  { cache := [(idZero, { path := "00/000000", modTime := 0, size := 3, reading := 0 })],
    files := ["00/000000"] }

/-! ## Theorems -/

/-- C2: for every Stats state and size, `MakeSpaceFor` fails with
`ErrReachedMaxNumber` iff `MaxNumber > 0` and `number >= MaxNumber`;
otherwise it fails with `ErrReachedMaxStorage` iff `MaxStorage > 0` and
`storage + size > MaxStorage`; otherwise it succeeds and increments
`number` by 1 and `storage` by `size` in one step; on either failure
both counters are left unchanged. -/
theorem makeSpaceFor_spec (s : Stats) (size : Int) :
    ((s.MakeSpaceFor size).1 = some .reachedMaxNumber ↔
      s.MaxNumber > 0 ∧ s.number ≥ s.MaxNumber)
    ∧ ((s.MakeSpaceFor size).1 = some .reachedMaxStorage ↔
      ¬(s.MaxNumber > 0 ∧ s.number ≥ s.MaxNumber) ∧
        s.MaxStorage > 0 ∧ s.storage + size > s.MaxStorage)
    ∧ ((s.MakeSpaceFor size).1 = none →
      (s.MakeSpaceFor size).2 =
        { s with number := s.number + 1, storage := s.storage + size })
    ∧ ((s.MakeSpaceFor size).1 ≠ none → (s.MakeSpaceFor size).2 = s) := by
  unfold Stats.MakeSpaceFor
  split_ifs with h1 h2 <;> simp_all

/-- Witness for `makeSpaceFor_spec`: a Stats at its count ceiling
rejects a reservation with `ErrReachedMaxNumber`. -/
theorem makeSpaceFor_spec_witness :
    (Stats.MakeSpaceFor ⟨1, 1, 0, 0⟩ 5).1 = some .reachedMaxNumber ∧
      (Stats.MakeSpaceFor ⟨1, 1, 0, 0⟩ 5).2 = ⟨1, 1, 0, 0⟩ :=
  ⟨(makeSpaceFor_spec ⟨1, 1, 0, 0⟩ 5).1.mpr (by decide),
   (makeSpaceFor_spec ⟨1, 1, 0, 0⟩ 5).2.2.2 (by decide)⟩

/-- Sum of an integer list after erasing one occurrence of a member. -/
theorem sum_erase_of_mem (l : List Int) (a : Int) (h : a ∈ l) :
    (l.erase a).sum = l.sum - a := by
  have hp : List.Perm l (a :: l.erase a) := List.perm_cons_erase h
  have := hp.sum_eq
  simp only [List.sum_cons] at this
  omega

/-- Length of an integer list after erasing one occurrence of a member,
as integers. -/
theorem length_erase_of_mem_int (l : List Int) (a : Int) (h : a ∈ l) :
    ((l.erase a).length : Int) = (l.length : Int) - 1 := by
  have hp : List.Perm l (a :: l.erase a) := List.perm_cons_erase h
  have := hp.length_eq
  simp only [List.length_cons] at this
  omega

/-- One trace step preserves the conservation invariant. -/
theorem spaceStep_inv (st st' : Stats × List Int) (op : SpaceOp)
    (hn : st.1.number = (st.2.length : Int)) (hs : st.1.storage = st.2.sum)
    (h : spaceStep st op = some st') :
    st'.1.number = (st'.2.length : Int) ∧ st'.1.storage = st'.2.sum := by
  cases op with
  | reserve size =>
      simp only [spaceStep] at h
      split_ifs at h with hok
      · cases h
        unfold Stats.MakeSpaceFor at hok ⊢
        split_ifs at hok ⊢
        constructor
        · simp only [List.length_cons]
          push_cast
          omega
        · simp only [List.sum_cons]
          omega
  | release size =>
      simp only [spaceStep] at h
      split_ifs at h with hmem
      · cases h
        refine ⟨?_, ?_⟩
        · simpa [Stats.FreeSpace, length_erase_of_mem_int st.2 size hmem] using by omega
        · simpa [Stats.FreeSpace, sum_erase_of_mem st.2 size hmem] using by omega

/-- Running a trace preserves the conservation invariant. -/
theorem runSpaceOps_inv (ops : List SpaceOp) :
    ∀ st st' : Stats × List Int,
      st.1.number = (st.2.length : Int) → st.1.storage = st.2.sum →
      runSpaceOps st ops = some st' →
      st'.1.number = (st'.2.length : Int) ∧ st'.1.storage = st'.2.sum := by
  induction ops with
  | nil =>
      intro st st' hn hs h
      cases h
      exact ⟨hn, hs⟩
  | cons op ops ih =>
      intro st st' hn hs h
      simp only [runSpaceOps, Option.bind_eq_some] at h
      rcases h with ⟨mid, hstep, hrun⟩
      rcases spaceStep_inv st mid op hn hs hstep with ⟨hn', hs'⟩
      exact ih mid st' hn' hs' hrun

/-- C3: for every finite sequence of successful reserves and paired
releases starting from a zeroed Stats, at every intermediate point
`number` equals the count of reserves not yet released and `storage`
equals the sum of their sizes.  (Every intermediate point is the final
state of a prefix trace, and the statement quantifies over all
traces.) -/
theorem stats_conservation (ops : List SpaceOp) (maxNumber maxStorage : Int)
    (s : Stats) (outstanding : List Int)
    (h : runSpaceOps (Stats.zeroed maxNumber maxStorage, []) ops = some (s, outstanding)) :
    s.number = (outstanding.length : Int) ∧ s.storage = outstanding.sum :=
  runSpaceOps_inv ops (Stats.zeroed maxNumber maxStorage, []) (s, outstanding)
    (by simp [Stats.zeroed]) (by simp [Stats.zeroed]) h

/-- Witness for `stats_conservation`: the trace reserve 5, reserve 3,
release 5 leaves one unmatched reserve of size 3. -/
theorem stats_conservation_witness :
    (Stats.mk 1 0 3 0).number = (([3] : List Int).length : Int) ∧
      (Stats.mk 1 0 3 0).storage = ([3] : List Int).sum :=
  stats_conservation [.reserve 5, .reserve 3, .release 5] 0 0
    (Stats.mk 1 0 3 0) [3] (by decide)

/-- C1 (evaluating the code at the failing input): on a store holding
one paste, `Get` returns an open, unclosed handle whose private copy of
the cache record carries reader count 1 while the store state — in
particular the map's record and its `reading` counter — is unchanged;
the subsequent `Delete` of the same id then finds reader count 0 on its
own copy, does not block, and removes the backing file even though the
handle has not been closed. -/
theorem fileStore_delete_ignores_readers :
    FileStore.Get oneFileState idZero =
      .ok ({ fileOpen := true, cacheReading := 1 }, oneFileState)
    ∧ FileStore.Delete oneFileState idZero =
      some (none, { cache := [], files := [] }) :=
  ⟨rfl, rfl⟩

/-- C9: for every backend store and every ID not present in the store's
index, `Delete(id)` returns `ErrPasteNotFound` and leaves the store
state — index, backing storage, and Stats counters — entirely
unchanged. -/
theorem delete_missing_id_unchanged (sf : FileStoreState) (sm : MemStoreState)
    (sx : MmapStoreState) (id : ID)
    (hf : mapFind id sf.cache = none) (hm : mapFind id sm.cache = none)
    (hx : mapFind id sx.cache = none) :
    FileStore.Delete sf id = some (some .pasteNotFound, sf)
    ∧ MemStore.Delete sm id = (some .pasteNotFound, sm)
    ∧ MmapStore.Delete sx id = (some (some .pasteNotFound, sx)) := by
  unfold FileStore.Delete MemStore.Delete MmapStore.Delete
  rw [hf, hm, hx]
  exact ⟨rfl, rfl, rfl⟩

/-- Witness for `delete_missing_id_unchanged`: deleting from empty
stores. -/
theorem delete_missing_id_unchanged_witness :
    FileStore.Delete ⟨[], []⟩ idZero = some (some .pasteNotFound, (⟨[], []⟩ : FileStoreState))
    ∧ MemStore.Delete ⟨[], Stats.zeroed 0 0⟩ idZero =
        (some .pasteNotFound, (⟨[], Stats.zeroed 0 0⟩ : MemStoreState))
    ∧ MmapStore.Delete ⟨[], [], []⟩ idZero =
        some (some .pasteNotFound, (⟨[], [], []⟩ : MmapStoreState)) :=
  delete_missing_id_unchanged ⟨[], []⟩ ⟨[], Stats.zeroed 0 0⟩ ⟨[], [], []⟩ idZero rfl rfl rfl

/-- C4 counterexample: a zero-byte file whose death time (modTime 0 +
lifetime 10 = 10) is NOT before the start time 5 is nevertheless removed
by the recovery walk and not indexed, contradicting the claim that every
unexpired visited file is indexed with its recorded size. -/
theorem fileRecover_zero_size_cex :
    (fileRecoverStep 5 10 (Stats.zeroed 0 0) false true 0 0).1 = .removed
    ∧ (fileRecoverStep 5 10 (Stats.zeroed 0 0) false true 0 0).1.isIndexed = false := by
  decide

/-- C4 (amended): for every regular file visited by the recovery walk
with a nonzero configured lifetime: if the file's modification time plus
the lifetime is at or before process start time, the file is deleted and
no index record is created; otherwise, if the file is empty it is
likewise deleted and not indexed; otherwise, if the capacity reservation
succeeds, the file is indexed with its recorded size and a deletion is
scheduled to fire after (modTime + lifetime) - startTime, the remaining
lifetime; if the reservation fails, the walk aborts with that error and
the file is not indexed. -/
theorem fileRecover_spec (startTime lifeTime modTime size : Int) (st : Stats)
    (hl : lifeTime > 0) :
    (modTime + lifeTime ≤ startTime →
      fileRecoverStep startTime lifeTime st false true modTime size = (.removed, st))
    ∧ (startTime < modTime + lifeTime → size = 0 →
      fileRecoverStep startTime lifeTime st false true modTime size = (.removed, st))
    ∧ (startTime < modTime + lifeTime → size ≠ 0 → (st.MakeSpaceFor size).1 = none →
      fileRecoverStep startTime lifeTime st false true modTime size =
        (.indexed modTime size (modTime + lifeTime - startTime), (st.MakeSpaceFor size).2))
    ∧ (∀ e, startTime < modTime + lifeTime → size ≠ 0 → (st.MakeSpaceFor size).1 = some e →
      fileRecoverStep startTime lifeTime st false true modTime size =
        (.capacityErr e, (st.MakeSpaceFor size).2)) := by
  refine ⟨?_, ?_, ?_, ?_⟩
  · intro hd
    unfold fileRecoverStep
    rw [if_neg (by simp), if_neg (by simp), if_pos ⟨hl, by omega⟩]
  · intro hd hz
    unfold fileRecoverStep
    rw [if_neg (by simp), if_neg (by simp), if_neg (by omega), if_pos hz]
  · intro hd hz hok
    unfold fileRecoverStep
    rw [if_neg (by simp), if_neg (by simp), if_neg (by omega), if_neg hz]
    rcases hms : Stats.MakeSpaceFor st size with ⟨o, st'⟩
    rw [hms] at hok
    simp only at hok
    subst hok
    simp [hms]
  · intro e hd hz hbad
    unfold fileRecoverStep
    rw [if_neg (by simp), if_neg (by simp), if_neg (by omega), if_neg hz]
    rcases hms : Stats.MakeSpaceFor st size with ⟨o, st'⟩
    rw [hms] at hbad
    simp only at hbad
    subst hbad
    simp [hms]

/-- Witness for `fileRecover_spec`: an unexpired non-empty file is
indexed and its deletion scheduled for the remaining 5 time units. -/
theorem fileRecover_spec_witness :
    fileRecoverStep 5 10 (Stats.zeroed 0 0) false true 0 7 =
      (.indexed 0 7 5, ((Stats.zeroed 0 0).MakeSpaceFor 7).2) :=
  (fileRecover_spec 5 10 0 7 (Stats.zeroed 0 0) (by decide)).2.2.1
    (by decide) (by decide) (by decide)

/-- C5 counterexample: a file whose on-disk modification time 200 lies
after the process start time 100 is indexed with a cache-record
modification time of 200, not clamped to 100 as the claim states. -/
theorem fileRecover_no_clamp_cex :
    fileRecoverStep 100 1000 (Stats.zeroed 0 0) false true 200 5 =
      (.indexed 200 5 1100, Stats.mk 1 0 5 0)
    ∧ (fileRecoverStep 100 1000 (Stats.zeroed 0 0) false true 200 5).1 ≠
        .indexed 100 5 1100 := by
  decide

/-- C5 (amended): for every file indexed by the recovery walk, the
modification time stored in the resulting cache record is the file's
on-disk modification time, unchanged — no clamping to process-start
time occurs, so a file modified after process start is recorded with
its future-looking time. -/
theorem fileRecover_modTime_unchanged (startTime lifeTime modTime size m sz ll : Int)
    (st : Stats)
    (h : (fileRecoverStep startTime lifeTime st false true modTime size).1 =
      .indexed m sz ll) :
    m = modTime ∧ sz = size ∧ ll = modTime + lifeTime - startTime := by
  unfold fileRecoverStep at h
  rw [if_neg (by simp), if_neg (by simp)] at h
  by_cases hexp : lifeTime > 0 ∧ modTime + lifeTime - startTime ≤ 0
  · rw [if_pos hexp] at h
    exact absurd h (by simp)
  · rw [if_neg hexp] at h
    by_cases hz : size = 0
    · rw [if_pos hz] at h
      exact absurd h (by simp)
    · rw [if_neg hz] at h
      rcases hms : Stats.MakeSpaceFor st size with ⟨o, st'⟩
      rw [hms] at h
      cases o with
      | none =>
          simp only [WalkOutcome.indexed.injEq] at h
          exact ⟨h.1.symm, h.2.1.symm, h.2.2.symm⟩
      | some e =>
          exact absurd h (by simp)

/-- Witness for `fileRecover_modTime_unchanged` at the future-modTime
input: the stored time is the raw 200. -/
theorem fileRecover_modTime_unchanged_witness :
    (200 : Int) = 200 ∧ (5 : Int) = 5 ∧ (1100 : Int) = 200 + 1000 - 100 :=
  fileRecover_modTime_unchanged 100 1000 200 5 200 5 1100 (Stats.zeroed 0 0) (by decide)

/-- The retry loop performs at most `deleteRetries - i` delete calls. -/
theorem deletionRetryLoop_le (delOK : Nat → Bool) :
    ∀ k i, deleteRetries - i ≤ k → (deletionRetryLoop delOK i).1 ≤ deleteRetries - i := by
  intro k
  induction k with
  | zero =>
      intro i hk
      unfold deletionRetryLoop
      rw [dif_neg (by omega)]
      simp
  | succ k ih =>
      intro i hk
      unfold deletionRetryLoop
      by_cases hi : i < deleteRetries
      · rw [dif_pos hi]
        by_cases hd : delOK (i + 1) = true
        · rw [if_pos hd]
          omega
        · rw [if_neg hd]
          have := ih (i + 1) (by omega)
          simp only
          omega
      · rw [dif_neg hi]
        omega

/-- When every delete call fails, the retry loop performs exactly its
budget of calls and reports failure. -/
theorem deletionRetryLoop_allFail (delOK : Nat → Bool) (hall : ∀ k, delOK k = false) :
    ∀ k i, deleteRetries - i ≤ k →
      deletionRetryLoop delOK i = (deleteRetries - i, false) := by
  intro k
  induction k with
  | zero =>
      intro i hk
      unfold deletionRetryLoop
      rw [dif_neg (by omega)]
      congr 1
      omega
  | succ k ih =>
      intro i hk
      unfold deletionRetryLoop
      by_cases hi : i < deleteRetries
      · rw [dif_pos hi, if_neg (by rw [hall (i + 1)]; exact Bool.false_ne_true)]
        rw [ih (i + 1) (by omega)]
        simp only
        congr 1
        omega
      · rw [dif_neg hi]
        congr 1
        omega

/-- C8: `SetupPasteDeletion` with `after == 0` performs no action and
never deletes the paste; with nonzero `after` it attempts the store's
Delete once when the timer fires and on each failure retries at most
`deleteRetries = 5` more times, each attempt separated from the
previous by the fixed backoff `deleteRetryTimeout` = 1 minute; if every
attempt fails it has made exactly 6 attempts, gives up and the paste is
not deleted — and the goroutine's `func()` type propagates no error to
any caller by construction. -/
theorem setupPasteDeletion_spec (after : Int) (delOK : Nat → Bool) :
    (after = 0 → setupPasteDeletionRun after delOK = (0, false))
    ∧ (after ≠ 0 → (setupPasteDeletionRun after delOK).1 ≤ 1 + deleteRetries)
    ∧ (after ≠ 0 → (∀ k, delOK k = false) →
        setupPasteDeletionRun after delOK = (1 + deleteRetries, false))
    ∧ (∀ n k, k + 1 < n →
        (deletionAttemptTimes after n).getD (k + 1) 0 -
          (deletionAttemptTimes after n).getD k 0 = deleteRetryTimeout)
    ∧ deleteRetryTimeout = 60 * 1000000000 := by
  refine ⟨?_, ?_, ?_, ?_, rfl⟩
  · intro h0
    unfold setupPasteDeletionRun
    rw [if_pos h0]
  · intro h0
    unfold setupPasteDeletionRun
    rw [if_neg h0]
    by_cases hd : delOK 0 = true
    · rw [if_pos hd]
      decide
    · rw [if_neg hd]
      have := deletionRetryLoop_le delOK deleteRetries 0 (by omega)
      simp only
      omega
  · intro h0 hall
    unfold setupPasteDeletionRun
    rw [if_neg h0, if_neg (by rw [hall 0]; exact Bool.false_ne_true)]
    rw [deletionRetryLoop_allFail delOK hall deleteRetries 0 (by omega)]
    decide
  · intro n k hk
    have h1 : (deletionAttemptTimes after n).getD (k + 1) 0 =
        after + ((k : Int) + 1) * deleteRetryTimeout := by
      unfold deletionAttemptTimes
      rw [List.getD_eq_getElem?_getD, List.getElem?_map,
        List.getElem?_range (show k + 1 < n by omega)]
      simp
    have h2 : (deletionAttemptTimes after n).getD k 0 =
        after + (k : Int) * deleteRetryTimeout := by
      unfold deletionAttemptTimes
      rw [List.getD_eq_getElem?_getD, List.getElem?_map,
        List.getElem?_range (show k < n by omega)]
      simp
    rw [h1, h2]
    ring

/-- Witness for `setupPasteDeletion_spec`: with a one-hour lifetime and
a Delete that always fails, exactly six attempts are made and the paste
survives; the second and third scheduled attempts are one minute
apart. -/
theorem setupPasteDeletion_spec_witness :
    setupPasteDeletionRun 3600000000000 (fun _ => false) = (1 + deleteRetries, false)
    ∧ (deletionAttemptTimes 3600000000000 6).getD 2 0 -
        (deletionAttemptTimes 3600000000000 6).getD 1 0 = deleteRetryTimeout :=
  ⟨(setupPasteDeletion_spec 3600000000000 (fun _ => false)).2.2.1 (by decide)
      (fun _ => rfl),
   (setupPasteDeletion_spec 3600000000000 (fun _ => false)).2.2.2.1 6 1 (by decide)⟩

/-- The draw loop's result depends only on draws strictly below
`randTries`. -/
theorem randomIDLoop_frame (rng rng' : Nat → Option ID) (available : ID → Bool)
    (hagree : ∀ u, u < randTries → rng u = rng' u) :
    ∀ k t, randTries - t ≤ k →
      randomIDLoop rng available t = randomIDLoop rng' available t := by
  intro k
  induction k with
  | zero =>
      intro t hk
      unfold randomIDLoop
      rw [dif_neg (by omega), dif_neg (by omega)]
  | succ k ih =>
      intro t hk
      unfold randomIDLoop
      by_cases ht : t < randTries
      · rw [dif_pos ht, dif_pos ht, hagree t ht]
        cases rng' t with
        | none => exact ih (t + 1) (by omega)
        | some id =>
            by_cases hav : available id = true
            · simp [hav]
            · have hrec := ih (t + 1) (by omega)
              simp [hav, hrec]
      · rw [dif_neg ht, dif_neg ht]

/-- If every remaining draw errors or is rejected, the loop exhausts. -/
theorem randomIDLoop_exhaust (rng : Nat → Option ID) (available : ID → Bool)
    (hall : ∀ u, u < randTries → ∀ id, rng u = some id → available id = false) :
    ∀ k t, randTries - t ≤ k →
      randomIDLoop rng available t = .error .noUnusedIDFound := by
  intro k
  induction k with
  | zero =>
      intro t hk
      unfold randomIDLoop
      rw [dif_neg (by omega)]
  | succ k ih =>
      intro t hk
      unfold randomIDLoop
      by_cases ht : t < randTries
      · rw [dif_pos ht]
        have hrec := ih (t + 1) (by omega)
        rcases hr : rng t with _ | id
        · simpa using hrec
        · have hfalse : available id = false := hall t ht id hr
          simp [hfalse, hrec]
      · rw [dif_neg ht]

/-- The loop returns the first accepted draw. -/
theorem randomIDLoop_first (rng : Nat → Option ID) (available : ID → Bool) :
    ∀ k t t0 id, t0 - t ≤ k → t ≤ t0 → t0 < randTries →
      rng t0 = some id → available id = true →
      (∀ u id', t ≤ u → u < t0 → rng u = some id' → available id' = false) →
      randomIDLoop rng available t = .ok id := by
  intro k
  induction k with
  | zero =>
      intro t t0 id hk ht0 hlt hr hav _hbefore
      have heq : t = t0 := by omega
      subst heq
      unfold randomIDLoop
      rw [dif_pos hlt, hr]
      simp [hav]
  | succ k ih =>
      intro t t0 id hk ht0 hlt hr hav hbefore
      by_cases heq : t = t0
      · subst heq
        unfold randomIDLoop
        rw [dif_pos hlt, hr]
        simp [hav]
      · unfold randomIDLoop
        rw [dif_pos (by omega)]
        have hrec : randomIDLoop rng available (t + 1) = .ok id :=
          ih (t + 1) t0 id (by omega) (by omega) hlt hr hav
            (fun u id' hu1 hu2 hu3 => hbefore u id' (by omega) hu2 hu3)
        rcases hu : rng t with _ | id'
        · simpa using hrec
        · have hfalse : available id' = false := hbefore t id' (by omega) (by omega) hu
          simp [hfalse, hrec]

/-- A successful loop result satisfies the availability predicate. -/
theorem randomIDLoop_ok_available (rng : Nat → Option ID) (available : ID → Bool) :
    ∀ k t id, randTries - t ≤ k →
      randomIDLoop rng available t = .ok id → available id = true := by
  intro k
  induction k with
  | zero =>
      intro t id hk h
      unfold randomIDLoop at h
      rw [dif_neg (by omega)] at h
      cases h
  | succ k ih =>
      intro t id hk h
      unfold randomIDLoop at h
      by_cases ht : t < randTries
      · rw [dif_pos ht] at h
        rcases hr : rng t with _ | id'
        · rw [hr] at h
          exact ih (t + 1) id (by omega) h
        · rw [hr] at h
          by_cases hav : available id' = true
          · simp [hav] at h
            subst h
            exact hav
          · simp [hav] at h
            exact ih (t + 1) id (by omega) h
      · rw [dif_neg ht] at h
        cases h

/-- C7: `randomID` draws at most `randTries = 10` candidate ids — its
result depends only on the first ten draws; if every draw fails at the
entropy source or is rejected by the availability predicate it returns
`ErrNoUnusedIDFound`; if some draw within the budget is accepted it
returns the first such id with no error; and a returned id always
satisfies the predicate. -/
theorem randomID_spec (rng rng' : Nat → Option ID) (available : ID → Bool) :
    ((∀ u, u < randTries → rng u = rng' u) →
      randomID rng available = randomID rng' available)
    ∧ ((∀ u, u < randTries → ∀ id, rng u = some id → available id = false) →
      randomID rng available = .error .noUnusedIDFound)
    ∧ (∀ t0 id, t0 < randTries → rng t0 = some id → available id = true →
      (∀ u id', u < t0 → rng u = some id' → available id' = false) →
      randomID rng available = .ok id)
    ∧ (∀ id, randomID rng available = .ok id → available id = true) := by
  refine ⟨?_, ?_, ?_, ?_⟩
  · intro hagree
    exact randomIDLoop_frame rng rng' available hagree randTries 0 (by omega)
  · intro hall
    exact randomIDLoop_exhaust rng available hall randTries 0 (by omega)
  · intro t0 id hlt hr hav hbefore
    exact randomIDLoop_first rng available t0 0 t0 id (by omega) (by omega) hlt hr hav
      (fun u id' _ hu2 hu3 => hbefore u id' hu2 hu3)
  · intro id h
    exact randomIDLoop_ok_available rng available randTries 0 id (by omega) h

/-- Witness for `randomID_spec`: an entropy source whose first draw is
the all-zero id, accepted by an always-true availability predicate. -/
theorem randomID_spec_witness :
    randomID (fun _ => some idZero) (fun _ => true) = .ok idZero :=
  (randomID_spec (fun _ => some idZero) (fun _ => some idZero) (fun _ => true)).2.2.1
    0 idZero (by decide) rfl rfl
    (fun u id' hu _ => absurd hu (Nat.not_lt_zero u))

/-- Decoding inverts encoding on each nibble (all sixteen cases). -/
theorem fromHexChar_hexDigit : ∀ n : Fin 16, fromHexChar (hexDigit n.val) = some n := by
  decide

/-- Every character `hexDigit` emits lies in the lowercase hex
alphabet. -/
theorem hexDigit_mem_table : ∀ n : Fin 16, hexDigit n.val ∈ lowercaseHexTable := by
  decide

/-- Unfolding `decodeHex` over one successfully decoded character
pair. -/
theorem decodeHex_cons_ok (c1 c2 : Char) (hi lo : Fin 16) (rest : List Char)
    (h1 : fromHexChar c1 = some hi) (h2 : fromHexChar c2 = some lo) :
    decodeHex (c1 :: c2 :: rest) =
      (decodeHex rest).map
        (fun bs => (⟨hi.val * 16 + lo.val, by omega⟩ : Fin 256) :: bs) := by
  conv_lhs => rw [decodeHex]
  rw [h1, h2]

/-- `decodeHex` undoes `byteToHex` at the head of the input. -/
theorem decodeHex_byteToHex (b : Fin 256) (rest : List Char) :
    decodeHex (byteToHex b ++ rest) = (decodeHex rest).map (fun bs => b :: bs) := by
  have h1 : fromHexChar (hexDigit (b.val / 16)) = some ⟨b.val / 16, by omega⟩ :=
    fromHexChar_hexDigit ⟨b.val / 16, by omega⟩
  have h2 : fromHexChar (hexDigit (b.val % 16)) = some ⟨b.val % 16, by omega⟩ :=
    fromHexChar_hexDigit ⟨b.val % 16, by omega⟩
  have hb : (⟨b.val / 16 * 16 + b.val % 16, by omega⟩ : Fin 256) = b := by
    apply Fin.ext
    show b.val / 16 * 16 + b.val % 16 = b.val
    omega
  rw [show byteToHex b ++ rest =
      hexDigit (b.val / 16) :: hexDigit (b.val % 16) :: rest from rfl,
    decodeHex_cons_ok _ _ _ _ rest h1 h2]
  simp only [hb]

/-- `decodeHex` recovers the four bytes from an encoded id. -/
theorem decodeHex_idString (id : ID) :
    decodeHex (ID.String id) = some [id.b0, id.b1, id.b2, id.b3] := by
  have hshape : ID.String id =
      byteToHex id.b0 ++ (byteToHex id.b1 ++ (byteToHex id.b2 ++ (byteToHex id.b3 ++ []))) := by
    simp [ID.String]
  rw [hshape, decodeHex_byteToHex, decodeHex_byteToHex, decodeHex_byteToHex,
    decodeHex_byteToHex]
  rfl

/-- A list containing a non-hex character never decodes. -/
theorem decodeHex_none_of_bad :
    ∀ l : List Char, (∃ c ∈ l, fromHexChar c = none) → decodeHex l = none
  | [], h => by
      rcases h with ⟨c, hc, _⟩
      cases hc
  | [_], _ => rfl
  | c1 :: c2 :: rest, h => by
      rcases h1 : fromHexChar c1 with _ | v1
      · unfold decodeHex
        rw [h1]
      · rcases h2 : fromHexChar c2 with _ | v2
        · unfold decodeHex
          rw [h1, h2]
        · have hrest : ∃ c ∈ rest, fromHexChar c = none := by
            rcases h with ⟨c, hc, hnone⟩
            rcases hc with _ | ⟨_, hc⟩
            · rw [h1] at hnone
              cases hnone
            · rcases hc with _ | ⟨_, hc⟩
              · rw [h2] at hnone
                cases hnone
              · exact ⟨c, hc, hnone⟩
          rw [decodeHex_cons_ok c1 c2 v1 v2 rest h1 h2,
            decodeHex_none_of_bad rest hrest]
          rfl

/-- C6: for every ID value, `IDFromString (id.String())` succeeds and
returns the same id, with `String` producing the canonical 8-character
lowercase hex form; and for every string whose length differs from 8 or
that contains a character that is not a hex digit (one `fromHexChar`
rejects), `IDFromString` fails with an error. -/
theorem idFromString_roundtrip_spec :
    (∀ id : ID, IDFromString (ID.String id) = .ok id
      ∧ (ID.String id).length = idSize
      ∧ ∀ c ∈ ID.String id, c ∈ lowercaseHexTable)
    ∧ (∀ s : List Char,
        s.length ≠ idSize ∨ (∃ c ∈ s, fromHexChar c = none) →
        IDFromString s = .error ()) := by
  constructor
  · intro id
    have hlen : (ID.String id).length = idSize := by
      simp [ID.String, byteToHex, idSize]
    refine ⟨?_, hlen, ?_⟩
    · unfold IDFromString
      rw [if_neg (by rw [hlen]; exact fun h => h rfl), decodeHex_idString]
    · intro c hc
      have hcases := hc
      simp only [ID.String, byteToHex, List.append_assoc, List.cons_append,
        List.nil_append, List.mem_cons, List.not_mem_nil, or_false] at hcases
      rcases hcases with h | h | h | h | h | h | h | h <;> subst h
      · exact hexDigit_mem_table ⟨id.b0.val / 16, by omega⟩
      · exact hexDigit_mem_table ⟨id.b0.val % 16, by omega⟩
      · exact hexDigit_mem_table ⟨id.b1.val / 16, by omega⟩
      · exact hexDigit_mem_table ⟨id.b1.val % 16, by omega⟩
      · exact hexDigit_mem_table ⟨id.b2.val / 16, by omega⟩
      · exact hexDigit_mem_table ⟨id.b2.val % 16, by omega⟩
      · exact hexDigit_mem_table ⟨id.b3.val / 16, by omega⟩
      · exact hexDigit_mem_table ⟨id.b3.val % 16, by omega⟩
  · intro s h
    by_cases hlen : s.length = idSize
    · rcases h with h | hbad
      · exact absurd hlen h
      · unfold IDFromString
        rw [if_neg (by rw [hlen]; exact fun h => h rfl),
          decodeHex_none_of_bad s hbad]
    · unfold IDFromString
      rw [if_pos hlen]

/-- Witness for `idFromString_roundtrip_spec`: the id 11223344
round-trips, and a string with a non-hex character is rejected. -/
theorem idFromString_roundtrip_spec_witness :
    IDFromString (ID.String ⟨17, 34, 51, 68⟩) = .ok ⟨17, 34, 51, 68⟩
    ∧ IDFromString ['z'] = .error () :=
  ⟨(idFromString_roundtrip_spec.1 ⟨17, 34, 51, 68⟩).1,
   idFromString_roundtrip_spec.2 ['z'] (Or.inl (by decide))⟩

/-- A paste-handle variable is never reassigned by method calls. -/
theorem runPaste_fst (ops : List PasteOp) :
    ∀ ps : MemPaste, (runPaste ps ops).1 = ps := by
  induction ops with
  | nil => intro ps; rfl
  | cons op rest ih =>
      intro ps
      cases op with
      | read pLen => exact ih ps
      | seek off wh => exact ih ps

/-- Reading `pLen` bytes through a freshly built handle over a
non-empty buffer always yields the buffer's first `pLen` bytes, no
EOF. -/
theorem memGetHandle_read (buffer : List Nat) (hne : buffer ≠ []) (pLen : Nat) :
    (memGetHandle buffer).Read pLen = (min pLen buffer.length, none, buffer.take pLen) := by
  unfold MemPaste.Read memGetHandle bufferContent.ReadImpl
  by_cases hp : pLen = 0
  · subst hp
    simp
  · rw [if_neg hp]
    have hpos : 0 < buffer.length := List.length_pos.mpr hne
    rw [if_neg (not_le.mpr (show (0 : Int) < buffer.length by exact_mod_cast hpos))]
    simp [List.length_take]

/-- C10: a `MemPaste` handle from `MemStore.Get` over a non-empty
buffer never persists a read position: after any sequence of `Read` and
`Seek` calls the handle variable still holds its initial value (the
value-receiver methods mutate discarded copies of `bufferContent`), and
every `Read(p)` in the sequence copies bytes starting at offset 0 —
returning `min(len(p), len(buffer))` bytes, the buffer's prefix — and
never returns `io.EOF`; in particular any two reads with equal `len(p)`
return identical data. -/
theorem memPaste_read_never_advances (buffer : List Nat) (ops : List PasteOp)
    (hne : buffer ≠ []) :
    (runPaste (memGetHandle buffer) ops).1 = memGetHandle buffer
    ∧ ∀ p r, (p, r) ∈ (runPaste (memGetHandle buffer) ops).2 →
        r.1 = min p buffer.length ∧ r.2.1 = none ∧ r.2.2 = buffer.take p := by
  refine ⟨runPaste_fst ops (memGetHandle buffer), ?_⟩
  induction ops with
  | nil =>
      intro p r hmem
      cases hmem
  | cons op rest ih =>
      intro p r hmem
      cases op with
      | read pLen =>
          simp only [runPaste, List.mem_cons, Prod.mk.injEq] at hmem
          rcases hmem with ⟨rfl, rfl⟩ | hmem
          · rw [memGetHandle_read buffer hne p]
            exact ⟨rfl, rfl, rfl⟩
          · exact ih p r hmem
      | seek off wh =>
          simp only [runPaste] at hmem
          exact ih p r hmem

/-- Witness for `memPaste_read_never_advances`: two consecutive
two-byte reads on a three-byte paste both return the first two bytes. -/
theorem memPaste_read_never_advances_witness :
    (runPaste (memGetHandle [7, 8, 9]) [PasteOp.read 2, PasteOp.read 2]).1 =
      memGetHandle [7, 8, 9]
    ∧ ((2, (2, none, [7, 8])) :
          Nat × (Nat × Option Unit × List Nat)) ∈
        (runPaste (memGetHandle [7, 8, 9]) [PasteOp.read 2, PasteOp.read 2]).2
    ∧ (2 : Nat) = min 2 ([7, 8, 9] : List Nat).length
    ∧ (none : Option Unit) = none
    ∧ [7, 8] = ([7, 8, 9] : List Nat).take 2 := by
  have hmem : ((2, (2, none, [7, 8])) :
      Nat × (Nat × Option Unit × List Nat)) ∈
      (runPaste (memGetHandle [7, 8, 9]) [PasteOp.read 2, PasteOp.read 2]).2 := by
    decide
  have h := memPaste_read_never_advances [7, 8, 9] [PasteOp.read 2, PasteOp.read 2]
    (by decide)
  exact ⟨h.1, hmem, (h.2 2 (2, none, [7, 8]) hmem).1,
    (h.2 2 (2, none, [7, 8]) hmem).2.1, (h.2 2 (2, none, [7, 8]) hmem).2.2⟩
